import Mathlib

/-!
Verification development for the RAG Pipeline Tester repository.

The repository ships a React frontend (src/frontend) that talks to a
FastAPI backend over HTTP.  The frontend API client (utils/api.ts), the
upload validation (components/DocumentUpload.tsx) and the multi-document
chunking loop (components/MultiDocumentChunking.tsx) are embedded here
directly from the source.  The backend core (chunking strategies, the
vector-store abstraction and the multi-provider compare orchestrator) is
not part of the repository snapshot, so those components are modelled
from the specification, as flagged on each such definition.
-/

namespace RagPipeline

/-! ## Frontend API client (src/frontend/src/utils/api.ts)

The envelope type mirrors APIResponse of src/frontend/src/types/index.ts.
In TypeScript the message and data fields may be absent at runtime
(the JSON payload is not validated), so both are modelled as Option.
-/

/-- Response envelope, from the APIResponse interface of types/index.ts. -/
structure APIResponse (D : Type) where
  success : Bool
  message : Option String
  data : Option D
deriving Repr, DecidableEq

/-- Outcome of the axios transport layer as seen by the response
interceptor of api.ts: a response envelope, a server error response
carrying an optional detail string, a network failure with no response,
or some other error carrying its own message. -/
inductive TransportOutcome (D : Type) where
  | ok (resp : APIResponse D)
  | httpError (detail : Option String)
  | networkError
  | otherError (msg : String)
deriving Repr, DecidableEq

/-- JavaScript string defaulting with the or-operator: an absent or
empty string is falsy, so the default is used in exactly those cases. -/
def jsOr (s : Option String) (dflt : String) : String :=
  match s with
  | none => dflt
  | some t => if t = "" then dflt else t

/-- A value thrown out of an api.ts wrapper: an Error constructed with
a message (by the wrapper itself or by the response interceptor), or
the TypeError the runtime raises when a wrapper reads a field off an
absent data payload, carrying the name of the field being read.  A
TypeError is itself an Error in JavaScript, so both constructors count
as a thrown Error. -/
inductive JsError where
  | error (msg : String)
  | typeError (field : String)
deriving Repr, DecidableEq

/-- Response interceptor of api.ts (lines 252 to 269): a server error
response is converted to an Error whose message is the detail field or a
generic fallback, a missing response becomes a fixed network-error
message, and any other error is rethrown unchanged.  A successful
response passes through. -/
def intercept {D : Type} (t : TransportOutcome D) : Except JsError (APIResponse D) :=
  match t with
  | .ok r => .ok r
  | .httpError d => .error (.error (jsOr d "An error occurred"))
  | .networkError => .error (.error "Network error - please check if the backend is running")
  | .otherError m => .error (.error m)

/-- The TypeScript expression data!.field: the non-null assertion does
nothing at runtime, so when the data payload is absent the field read
raises a TypeError naming the field; otherwise the field is
returned. -/
def bangField {D R : Type} (fieldName : String) (f : D → R) (data : Option D) :
    Except JsError R :=
  match data with
  | none => .error (.typeError fieldName)
  | some d => .ok (f d)

/-- Shared envelope-unwrapping pattern of every wrapper in api.ts: run
the transport, and on a delivered envelope throw when success is false
(with the message field or an operation-specific default) or evaluate
the success-path payload expression when success is true.  The payload
expression itself may throw (a TypeError, when it reads a field off an
absent data slot), so it is a fallible computation. -/
def envelopeStep {D R : Type} (dflt : String) (proj : APIResponse D → Except JsError R)
    (t : TransportOutcome D) : Except JsError R :=
  match intercept t with
  | .error e => .error e
  | .ok r => if r.success then proj r else .error (.error (jsOr r.message dflt))

/-- Payload of the documents listing endpoint: the object whose
documents field api.ts projects out in getDocuments. -/
structure DocumentsData (Document : Type) where
  documents : List Document
deriving Repr, DecidableEq

/-- Payload of the single-document endpoint, projected in getDocument. -/
structure DocumentData (Document : Type) where
  document : Document
deriving Repr, DecidableEq

/-- Payload of the chunk-listing endpoint, projected field by field in
getDocumentChunks. -/
structure ChunksData (Chunk Stats : Type) where
  chunks : List Chunk
  statistics : Stats
deriving Repr, DecidableEq

/-- Payload of the collections listing endpoint, projected in
listCollections. -/
structure CollectionsData where
  collections : List String
deriving Repr, DecidableEq

/-- Payload of the collection statistics endpoint, projected in
getCollectionStats. -/
structure StatsData (Stats : Type) where
  stats : Stats
deriving Repr, DecidableEq

/-- uploadDocument of api.ts (lines 21 to 36): default message "Upload
failed"; the success path is data! alone, a non-null assertion with no
runtime effect, so it returns the data slot as is and cannot throw. -/
def uploadDocument {U : Type} (t : TransportOutcome U) : Except JsError (Option U) :=
  envelopeStep "Upload failed" (fun r => .ok r.data) t

/-- getDocuments of api.ts (line 48): default message "Failed to fetch
documents"; the success path is data!.documents, which raises a
TypeError when the data slot is absent. -/
def getDocuments {Document : Type} (t : TransportOutcome (DocumentsData Document)) :
    Except JsError (List Document) :=
  envelopeStep "Failed to fetch documents"
    (fun r => bangField "documents" (fun d => d.documents) r.data) t

/-- getDocument of api.ts (line 61): default message "Failed to fetch
document"; the success path is data!.document, which raises a TypeError
when the data slot is absent. -/
def getDocument {Document : Type} (t : TransportOutcome (DocumentData Document)) :
    Except JsError Document :=
  envelopeStep "Failed to fetch document"
    (fun r => bangField "document" (fun d => d.document) r.data) t

/-- deleteDocument of api.ts: default message "Failed to delete
document", returns no payload and reads nothing off the data slot. -/
def deleteDocument {D : Type} (t : TransportOutcome D) : Except JsError Unit :=
  envelopeStep "Failed to delete document" (fun _ => .ok ()) t

/-- chunkDocument of api.ts: default message "Chunking failed"; the
success path is data! alone, so it returns the data slot as is. -/
def chunkDocument {C : Type} (t : TransportOutcome C) : Except JsError (Option C) :=
  envelopeStep "Chunking failed" (fun r => .ok r.data) t

/-- getDocumentChunks of api.ts (lines 108 to 111): default message
"Failed to fetch chunks"; the success path reads data!.chunks and
data!.statistics, so an absent data slot raises a TypeError at the
first field read (chunks). -/
def getDocumentChunks {Chunk Stats : Type} (t : TransportOutcome (ChunksData Chunk Stats)) :
    Except JsError (List Chunk × Stats) :=
  envelopeStep "Failed to fetch chunks"
    (fun r => bangField "chunks" (fun d => (d.chunks, d.statistics)) r.data) t

/-- generateEmbeddings of api.ts: default message "Embedding generation
failed"; the success path is data! alone, so it returns the data slot
as is. -/
def generateEmbeddings {E : Type} (t : TransportOutcome E) : Except JsError (Option E) :=
  envelopeStep "Embedding generation failed" (fun r => .ok r.data) t

/-- storeVectors of api.ts: default message "Failed to store vectors";
the success path is data! alone, so it returns the data slot as is. -/
def storeVectors {S : Type} (t : TransportOutcome S) : Except JsError (Option S) :=
  envelopeStep "Failed to store vectors" (fun r => .ok r.data) t

/-- searchVectors of api.ts: default message "Search failed"; the
success path is data! alone, so it returns the data slot as is. -/
def searchVectors {S : Type} (t : TransportOutcome S) : Except JsError (Option S) :=
  envelopeStep "Search failed" (fun r => .ok r.data) t

/-- listCollections of api.ts (line 224): default message "Failed to
list collections"; the success path is data!.collections, which raises
a TypeError when the data slot is absent. -/
def listCollections (t : TransportOutcome CollectionsData) :
    Except JsError (List String) :=
  envelopeStep "Failed to list collections"
    (fun r => bangField "collections" (fun d => d.collections) r.data) t

/-- deleteCollection of api.ts: default message "Failed to delete
collection", returns no payload and reads nothing off the data slot. -/
def deleteCollection {D : Type} (t : TransportOutcome D) : Except JsError Unit :=
  envelopeStep "Failed to delete collection" (fun _ => .ok ()) t

/-- getCollectionStats of api.ts (line 248): default message "Failed to
get collection stats"; the success path is data!.stats, which raises a
TypeError when the data slot is absent. -/
def getCollectionStats {Stats : Type} (t : TransportOutcome (StatsData Stats)) :
    Except JsError Stats :=
  envelopeStep "Failed to get collection stats"
    (fun r => bangField "stats" (fun d => d.stats) r.data) t

/-- Whether the transport layer itself failed (no well-formed envelope
was delivered to the wrapper). -/
def transportFails {D : Type} (t : TransportOutcome D) : Bool :=
  match t with
  | .ok _ => false
  | _ => true

/-- Whether an Except value is an error (the wrapper threw). -/
def isThrown {E R : Type} (x : Except E R) : Bool :=
  match x with
  | .ok _ => false
  | .error _ => true

/-- The amended contract of an api.ts wrapper whose success path reads
the data slot without projecting a field out of it (or ignores it):
it throws exactly when the transport fails or the envelope has success
false; on success it returns the projected payload unchanged; on an
envelope failure the thrown Error message is the envelope message when
that is present and nonempty, and the operation-specific default
otherwise. -/
def WrapsPlain {D R : Type} (dflt : String) (proj : APIResponse D → R)
    (w : TransportOutcome D → Except JsError R) : Prop :=
  (∀ t : TransportOutcome D,
      isThrown (w t) = (transportFails t || !(match t with
        | .ok r => r.success
        | _ => false))) ∧
  (∀ r : APIResponse D, r.success = true → w (.ok r) = .ok (proj r)) ∧
  (∀ r : APIResponse D, r.success = false →
      w (.ok r) = .error (.error (jsOr r.message dflt)))

/-- The amended contract of an api.ts wrapper whose success path
projects a field out of the data payload: it throws exactly when the
transport fails, the envelope has success false, or a success envelope
arrives with no data payload; in that last case the throw is the
runtime TypeError naming the projected field, not an Error built from
the envelope message; on success with data present it returns the
projected payload unchanged; on an envelope failure the thrown Error
message follows the same present-and-nonempty-or-default rule. -/
def WrapsProjecting {D R : Type} (dflt : String) (fieldName : String) (f : D → R)
    (w : TransportOutcome D → Except JsError R) : Prop :=
  (∀ t : TransportOutcome D,
      isThrown (w t) = (transportFails t || !(match t with
        | .ok r => r.success && r.data.isSome
        | _ => false))) ∧
  (∀ r : APIResponse D, ∀ d : D, r.success = true → r.data = some d →
      w (.ok r) = .ok (f d)) ∧
  (∀ r : APIResponse D, r.success = true → r.data = none →
      w (.ok r) = .error (.typeError fieldName)) ∧
  (∀ r : APIResponse D, r.success = false →
      w (.ok r) = .error (.error (jsOr r.message dflt)))

/-! ## DocumentUpload validation (src/frontend/src/components/DocumentUpload.tsx)

handleFileSelect validates the chosen file before any upload request:
extension check first, then size check, and only then uploadDocument.
File names are modelled as lists of characters.
-/

/-- JavaScript String.lastIndexOf for a single character: the index of
the last occurrence, or -1 when the character does not occur. -/
def lastIndexOf (c : Char) : List Char → Int
  | [] => -1
  | a :: rest =>
      let r := lastIndexOf c rest
      if 0 ≤ r then r + 1 else if a = c then 0 else -1

/-- JavaScript String.substring with one argument: a negative start
index is clamped to zero, so substring(lastIndexOf) of a dotless name
returns the whole name. -/
def jsSubstringFrom (s : List Char) (i : Int) : List Char :=
  s.drop i.toNat

/-- JavaScript String.toLowerCase, character by character. -/
def toLowerStr (s : List Char) : List Char :=
  s.map Char.toLower

/-- The allowedTypes array of handleFileSelect. -/
def allowedTypes : List (List Char) :=
  [String.toList ".txt", String.toList ".md"]

/-- The fileExt computation of handleFileSelect:
file.name.substring(file.name.lastIndexOf(".")).toLowerCase(). -/
def fileExt (name : List Char) : List Char :=
  toLowerStr (jsSubstringFrom name (lastIndexOf '.' name))

/-- The maxSize constant of handleFileSelect (10 megabytes). -/
def maxUploadSize : Nat := 10 * 1024 * 1024

/-- What handleFileSelect does with a selected file: reject on type,
reject on size, or start the upload request. -/
inductive SelectOutcome where
  | typeRejected
  | sizeRejected
  | uploadStarted
deriving Repr, DecidableEq

/-- handleFileSelect of DocumentUpload.tsx (lines 19 to 55), reduced to
its control flow: the extension gate runs first and returns early, the
size gate runs second and returns early, and only then is
uploadDocument invoked. -/
def handleFileSelect (name : List Char) (size : Nat) : SelectOutcome :=
  if fileExt name ∉ allowedTypes then .typeRejected
  else if size > maxUploadSize then .sizeRejected
  else .uploadStarted

/-! ## MultiDocumentChunking (src/frontend/src/components/MultiDocumentChunking.tsx)

handleChunkAll initialises every selected document to pending, then
walks the document list in order, awaiting one chunkDocument call at a
time; a success sets the status to success and fires
onChunkingComplete, a failure sets the status to error and moves on.
The outcome of each awaited chunkDocument call is abstracted as a
function from document id to Except.
-/

/-- Per-document status values of the chunkingStatus map. -/
inductive DocStatus where
  | pending
  | processing
  | success
  | error
deriving Repr, DecidableEq

/-- Observable trace of one handleChunkAll run: the chunkDocument calls
in order, the final status map, and the onChunkingComplete invocations
in order. -/
structure ChunkAllTrace (R : Type) where
  calls : List String
  status : List (String × DocStatus)
  completions : List (String × R)
deriving Repr, DecidableEq

/-- Map.set on the status map for a key already present: update the
value stored under that id, leave other ids alone. -/
def setStatus (m : List (String × DocStatus)) (id : String) (st : DocStatus) :
    List (String × DocStatus) :=
  m.map (fun p => if p.1 = id then (p.1, st) else p)

/-- Map.get on the status map. -/
def lookupStatus : List (String × DocStatus) → String → Option DocStatus
  | [], _ => none
  | a :: rest, id => if a.1 = id then some a.2 else lookupStatus rest id

/-- Sequential loop body of handleChunkAll: for each document set
processing, await chunkDocument, then set success and fire
onChunkingComplete, or on failure set error and continue with the next
document. -/
def chunkAllGo {R : Type} (gen : String → Except String R) :
    List String → List (String × DocStatus) → ChunkAllTrace R
  | [], m => { calls := [], status := m, completions := [] }
  | d :: rest, m =>
      match gen d with
      | .ok r =>
          let t := chunkAllGo gen rest (setStatus (setStatus m d .processing) d .success)
          { calls := d :: t.calls, status := t.status, completions := (d, r) :: t.completions }
      | .error _ =>
          let t := chunkAllGo gen rest (setStatus (setStatus m d .processing) d .error)
          { calls := d :: t.calls, status := t.status, completions := t.completions }

/-- handleChunkAll of MultiDocumentChunking.tsx (lines 65 to 103):
initialise every document to pending, then process the documents
strictly sequentially in list order. -/
def handleChunkAll {R : Type} (docs : List String) (gen : String → Except String R) :
    ChunkAllTrace R :=
  chunkAllGo gen docs (docs.map (fun d => (d, DocStatus.pending)))

/-! ## VectorStore contract (specification sections 3, 4.3)

The concrete vector-store backends live in the FastAPI backend, which
is not part of the repository snapshot (the frontend api.ts only
forwards HTTP requests to it), so the store is modelled from the
specification.  Scores use the rational numbers; the specification
fixes cosine similarity but allows a backend-specific monotone
transform, so search is parametrised by the similarity function.
-/

/-- Modelled from the spec: a CollectionEntry, the durable unit held by
a VectorStore, with id, vector, text and metadata (the concrete backend
implementations are missing from the snapshot). -/
structure CollectionEntry where
  id : String
  vector : List ℚ
  text : String
  metadata : List (String × String)
deriving Repr, DecidableEq

/-- Modelled from the spec: a named collection with its established
vector dimension and its entries. -/
structure Collection where
  dim : Nat
  entries : List CollectionEntry
deriving Repr, DecidableEq

/-- Modelled from the spec: a backend-scoped family of named
collections. -/
structure VectorStore where
  collections : List (String × Collection)
deriving Repr, DecidableEq

/-- Modelled from the spec: the single error the store contract names
at insert time, a vector dimension disagreeing with the established
collection dimension. -/
inductive StoreError where
  | dimensionMismatch
deriving Repr, DecidableEq

/-- Look a collection up by name. -/
def lookupCollection (s : VectorStore) (name : String) : Option Collection :=
  (s.collections.find? (fun p => p.1 == name)).map (fun p => p.2)

/-- Replace or create the named collection. -/
def setCollection (s : VectorStore) (name : String) (c : Collection) : VectorStore :=
  if s.collections.any (fun p => p.1 == name) then
    ⟨s.collections.map (fun p => if p.1 == name then (name, c) else p)⟩
  else ⟨s.collections ++ [(name, c)]⟩

/-- Insert one entry into an entry list, overwriting on id collision. -/
def upsertEntry (l : List CollectionEntry) (e : CollectionEntry) : List CollectionEntry :=
  if l.any (fun x => x.id == e.id) then l.map (fun x => if x.id == e.id then e else x)
  else l ++ [e]

/-- Insert a batch of entries in order, overwriting on id collision. -/
def upsertAll (l : List CollectionEntry) (es : List CollectionEntry) : List CollectionEntry :=
  es.foldl upsertEntry l

/-- Modelled from the spec: upsert of section 4.3 (the backend code is
missing): the collection is created on first use with the dimension of
the incoming vectors, every entry whose vector dimension disagrees with
the established dimension is rejected with a DimensionMismatchError and
nothing of the batch is stored, id collisions overwrite, and the count
of stored entries is returned.  An empty batch into a nonexistent
collection stores nothing. -/
def VectorStore.upsert (s : VectorStore) (name : String) (es : List CollectionEntry) :
    Except StoreError (VectorStore × Nat) :=
  match lookupCollection s name with
  | some c =>
      if es.all (fun e => e.vector.length == c.dim) then
        .ok (setCollection s name ⟨c.dim, upsertAll c.entries es⟩, es.length)
      else .error .dimensionMismatch
  | none =>
      match es.head? with
      | none => .ok (s, 0)
      | some e0 =>
          let d := e0.vector.length
          if es.all (fun e => e.vector.length == d) then
            .ok (setCollection s name ⟨d, upsertAll [] es⟩, es.length)
          else .error .dimensionMismatch

/-- The store a caller holds after an upsert: the new store on success,
the untouched old store when the batch was rejected. -/
def VectorStore.applyUpsert (s : VectorStore) (name : String) (es : List CollectionEntry) :
    VectorStore :=
  match s.upsert name es with
  | .ok (s2, _) => s2
  | .error _ => s

/-- Modelled from the spec: the count reported by stats(collection) of
section 4.3, none when the collection does not exist. -/
def VectorStore.statsCount (s : VectorStore) (name : String) : Option Nat :=
  (lookupCollection s name).map (fun c => c.entries.length)

/-- Modelled from the spec: a RetrievalResult of section 3, one ranked
search hit. -/
structure RetrievalResult where
  chunk_id : String
  text : String
  score : ℚ
  metadata : List (String × String)
deriving Repr, DecidableEq

/-- Descending order of score, the order the search contract requires
on its output. -/
def byScoreDesc (a b : RetrievalResult) : Prop :=
  b.score ≤ a.score

instance : DecidableRel byScoreDesc := fun a b =>
  inferInstanceAs (Decidable (b.score ≤ a.score))

instance : IsTotal RetrievalResult byScoreDesc :=
  ⟨fun a b => le_total b.score a.score⟩

instance : IsTrans RetrievalResult byScoreDesc :=
  ⟨fun _ _ _ hab hbc => le_trans hbc hab⟩

/-- Modelled from the spec: search of section 4.3 (the backend code is
missing): score every entry of the collection against the query vector,
order the hits by descending similarity and return at most top_k of
them; a nonexistent collection yields the empty sequence and search
never fails.  The similarity function is a parameter because the spec
fixes cosine similarity only up to a backend-specific monotone
transform. -/
def VectorStore.search (sim : List ℚ → List ℚ → ℚ) (s : VectorStore) (name : String)
    (q : List ℚ) (topk : Nat) : List RetrievalResult :=
  match lookupCollection s name with
  | none => []
  | some c =>
      ((c.entries.map (fun e =>
          { chunk_id := e.id, text := e.text, score := sim q e.vector,
            metadata := e.metadata : RetrievalResult })).insertionSort byScoreDesc).take topk

/-- Modelled from the spec: delete(collection) of section 4.3 (the
backend code is missing): remove the named collection when present, and
succeed without error in every case, in particular when the collection
does not exist. -/
def VectorStore.delete (s : VectorStore) (name : String) : Except StoreError VectorStore :=
  .ok ⟨s.collections.filter (fun p => !(p.1 == name))⟩

/-- The store a caller holds after a delete. -/
def VectorStore.applyDelete (s : VectorStore) (name : String) : VectorStore :=
  match s.delete name with
  | .ok s2 => s2
  | .error _ => s

/-! ## Multi-provider compare orchestrator (specification sections 4.5, 7)

The RAG compare endpoint lives in the missing backend (the frontend
RAGCompare.tsx only submits the request and renders the per-provider
slots), so the dispatch step is modelled from the specification.  The
outcome of each provider generation call is abstracted as a function
from provider name to Except.
-/

/-- Modelled from the spec: the token usage block of a provider
answer. -/
structure TokenUsage where
  prompt_tokens : Nat
  completion_tokens : Nat
  total_tokens : Nat
deriving Repr, DecidableEq

/-- Modelled from the spec: the successful payload of one generation
call. -/
structure GenSuccess where
  answer_text : String
  model_name : String
  usage : TokenUsage
deriving Repr, DecidableEq

/-- Modelled from the spec: a ProviderAnswer of section 3, either a
successful answer or a recorded provider error. -/
inductive ProviderAnswer where
  | answered (provider_name : String) (a : GenSuccess)
  | failed (provider_name : String) (error : String)
deriving Repr, DecidableEq

/-- The answer text of a slot, none for a failed provider. -/
def ProviderAnswer.answerText? : ProviderAnswer → Option String
  | .answered _ a => some a.answer_text
  | .failed _ _ => none

/-- The recorded error of a slot, none for a successful provider. -/
def ProviderAnswer.errorMsg? : ProviderAnswer → Option String
  | .answered _ _ => none
  | .failed _ e => some e

/-- Modelled from the spec: the dispatch and aggregation step of the
multi-provider compare of section 4.5 (the orchestrator code is
missing): one generation call per selected provider, each outcome
converted into that provider slot of the CompareResult, a failure
recorded in its own slot without affecting the other providers or the
request as a whole. -/
def ragCompare (providers : List String) (gen : String → Except String GenSuccess) :
    List (String × ProviderAnswer) :=
  providers.map (fun p =>
    (p, match gen p with
        | .ok a => ProviderAnswer.answered p a
        | .error e => ProviderAnswer.failed p e))

/-- The slot of one provider in a CompareResult. -/
def lookupProvider (r : List (String × ProviderAnswer)) (p : String) :
    Option ProviderAnswer :=
  (r.find? (fun q => q.1 == p)).map (fun q => q.2)

/-! ## Chunking strategies (specification sections 3, 4.1)

The chunking engine lives in the missing backend (the frontend only
submits a strategy name and the size and overlap parameters), so every
strategy is modelled from the specification.  Text is a list of
characters; offsets are character positions.
-/

/-- Modelled from the spec: a Chunk of section 3.  The token estimator
and the id scheme are left unspecified by the spec; the id pairs the
document id with the index and the estimate divides the character count
by four.  No claim depends on either. -/
structure Chunk where
  id : String
  document_id : String
  index : Nat
  text : List Char
  char_count : Nat
  estimated_token_count : Nat
  start_offset : Nat
  end_offset : Nat
deriving Repr, DecidableEq

/-- Build the chunk of one contiguous piece of text. -/
def mkChunk (docId : String) (idx : Nat) (piece : List Char) (a b : Nat) : Chunk :=
  { id := docId ++ "/" ++ toString idx
    document_id := docId
    index := idx
    text := piece
    char_count := piece.length
    estimated_token_count := piece.length / 4
    start_offset := a
    end_offset := b }

/-- Chunks of a partition of the text: each piece becomes one chunk,
offsets accumulate so that every chunk starts where the previous one
ended. -/
def chunksFromPiecesAux (docId : String) : Nat → Nat → List (List Char) → List Chunk
  | _, _, [] => []
  | idx, start, p :: rest =>
      mkChunk docId idx p start (start + p.length) ::
        chunksFromPiecesAux docId (idx + 1) (start + p.length) rest

/-- Chunks of a partition of the text, starting at offset zero. -/
def chunksFromPieces (docId : String) (pieces : List (List Char)) : List Chunk :=
  chunksFromPiecesAux docId 0 0 pieces

/-- Chunks of a list of window spans over the text: each span becomes
one chunk holding the corresponding slice of the text. -/
def chunksFromSpansAux (docId : String) (text : List Char) :
    Nat → List (Nat × Nat) → List Chunk
  | _, [] => []
  | idx, sp :: rest =>
      mkChunk docId idx ((text.drop sp.1).take (sp.2 - sp.1)) sp.1 sp.2 ::
        chunksFromSpansAux docId text (idx + 1) rest

/-- Chunks of a list of window spans, starting at index zero. -/
def chunksFromSpans (docId : String) (text : List Char) (spans : List (Nat × Nat)) :
    List Chunk :=
  chunksFromSpansAux docId text 0 spans

/-- Ceiling division on naturals. -/
def ceilDiv (a b : Nat) : Nat := (a + b - 1) / b

/-- Modelled from the spec: the number of windows the Fixed strategy of
section 4.1 emits over a text of n characters with the given window
size and advance step: zero only for empty input, one window when the
text fits, and otherwise one window plus one per step needed to move
the window end to the end of the text, matching the count formula of
section 8. -/
def fixedCount (n size step : Nat) : Nat :=
  if n = 0 then 0 else if n ≤ size then 1 else 1 + ceilDiv (n - size) step

/-- Modelled from the spec: the window spans of the Fixed strategy of
section 4.1: window i starts at i times the step and ends a full window
later, clamped to the end of the text, so the last window may be
shorter and is still emitted. -/
def fixedSpans (n size step : Nat) : List (Nat × Nat) :=
  (List.range (fixedCount n size step)).map (fun i => (i * step, min (i * step + size) n))

/-- Cut a list after every character satisfying the predicate, keeping
the separator attached to the piece it ends. -/
def splitAfterAux (p : Char → Bool) : List Char → List Char → List (List Char)
  | [], acc => if acc.isEmpty then [] else [acc.reverse]
  | c :: rest, acc =>
      if p c then (acc.reverse ++ [c]) :: splitAfterAux p rest []
      else splitAfterAux p rest (c :: acc)

/-- Cut a list after every character satisfying the predicate. -/
def splitAfter (p : Char → Bool) (s : List Char) : List (List Char) :=
  splitAfterAux p s []

/-- Sentence-ending punctuation. -/
def isSentenceEnd (c : Char) : Bool :=
  c == '.' || c == '!' || c == '?'

/-- Whitespace characters, the lowest-priority separator of the
Recursive strategy. -/
def isSpaceChar (c : Char) : Bool :=
  c == ' ' || c == '\n' || c == '\t' || c == '\r'

/-- Modelled from the spec: the sentence-boundary detection of section
4.1 (the spec leaves the detector unspecified; this model cuts after
sentence-ending punctuation, keeping the punctuation attached so the
pieces concatenate back to the text). -/
def splitSentences (s : List Char) : List (List Char) :=
  splitAfter isSentenceEnd s

/-- Split at whitespace, keeping each separator attached to the piece
it ends. -/
def splitSpaces (s : List Char) : List (List Char) :=
  splitAfter isSpaceChar s

/-- Cut a list after every paragraph break (two consecutive newlines),
keeping the break attached to the piece it ends. -/
def splitParasAux : List Char → List Char → List (List Char)
  | [], acc => if acc.isEmpty then [] else [acc.reverse]
  | '\n' :: '\n' :: rest, acc => (acc.reverse ++ ['\n', '\n']) :: splitParasAux rest []
  | c :: rest, acc => splitParasAux rest (c :: acc)

/-- Split at paragraph breaks, the highest-priority separator of the
Recursive strategy. -/
def splitParas (s : List Char) : List (List Char) :=
  splitParasAux s []

/-- Greedy merge of adjacent pieces: accumulate consecutive pieces into
a group while the group stays within the size budget; a single piece
larger than the budget is emitted whole.  This is both the
sentence-accumulation loop of the Sentence strategy and the
merge-adjacent-undersized step of the Recursive strategy. -/
def groupBySizeAux (size : Nat) : List (List Char) → List Char → List (List Char)
  | [], cur => if cur.isEmpty then [] else [cur]
  | p :: rest, cur =>
      if cur.isEmpty then groupBySizeAux size rest p
      else if cur.length + p.length ≤ size then groupBySizeAux size rest (cur ++ p)
      else cur :: groupBySizeAux size rest p

/-- Greedy merge of adjacent pieces up to the size budget. -/
def groupBySize (size : Nat) (pieces : List (List Char)) : List (List Char) :=
  groupBySizeAux size pieces []

/-- Modelled from the spec: the grouping loop of the Semantic strategy
of section 4.1: walk the sentences, start a new chunk when the
similarity of the previous and the next sentence drops below the
threshold while the current chunk already has content, or when adding
the next sentence would exceed the size budget.  The similarity
function and the threshold are parameters, as section 9 leaves both
configurable. -/
def semanticGroupAux (size : Nat) (sim : List Char → List Char → ℚ) (θ : ℚ) :
    List (List Char) → List Char → List Char → List (List Char)
  | [], cur, _ => if cur.isEmpty then [] else [cur]
  | p :: rest, cur, prev =>
      if cur.isEmpty then semanticGroupAux size sim θ rest p p
      else if sim prev p < θ ∨ size < cur.length + p.length then
        cur :: semanticGroupAux size sim θ rest p p
      else semanticGroupAux size sim θ rest (cur ++ p) p

/-- Semantic grouping of a sentence list, starting with an empty
chunk. -/
def semanticGroup (size : Nat) (sim : List Char → List Char → ℚ) (θ : ℚ)
    (pieces : List (List Char)) : List (List Char) :=
  semanticGroupAux size sim θ pieces [] []

/-- Contiguous zero-overlap chop into slices of at most the given size,
the Fixed fallback the Recursive strategy applies to a piece no
separator can bring under the budget (the spec leaves the overlap of
the fallback unspecified; the model chops contiguously so the pieces
stay a partition). -/
def chop (size : Nat) : List Char → List (List Char)
  | [] => []
  | c :: rest => (c :: rest.take (size - 1)) :: chop size (rest.drop (size - 1))
termination_by s => s.length
decreasing_by
  simp only [List.length_drop, List.length_cons]
  omega

/-- Modelled from the spec: the Recursive strategy of section 4.1: try
the separators in priority order (paragraph break, sentence boundary,
whitespace) and use the first whose pieces all fit the size budget;
when none does, chop every offending whitespace piece with the Fixed
fallback.  In every branch adjacent undersized pieces are merged up to
the budget. -/
def recursivePieces (size : Nat) (s : List Char) : List (List Char) :=
  let p1 := splitParas s
  if p1.all (fun p => decide (p.length ≤ size)) then groupBySize size p1
  else
    let p2 := splitSentences s
    if p2.all (fun p => decide (p.length ≤ size)) then groupBySize size p2
    else
      let p3 := splitSpaces s
      if p3.all (fun p => decide (p.length ≤ size)) then groupBySize size p3
      else
        groupBySize size
          ((p3.map (fun p => if p.length ≤ size then [p] else chop size p)).flatten)

/-- The five chunking strategies offered by the frontend (the strategy
identifiers of MultiDocumentChunking.tsx). -/
inductive Strategy where
  | fixed
  | recursive
  | sentence
  | semantic
  | slidingWindow
deriving Repr, DecidableEq

/-- Parameters of one chunking invocation: the size budget, the window
overlap of the Fixed strategy, the stride of the SlidingWindow
strategy, and the similarity function and threshold of the Semantic
strategy. -/
structure ChunkParams where
  size : Nat
  overlap : Nat
  stride : Nat
  sim : List Char → List Char → ℚ
  threshold : ℚ

/-- Modelled from the spec: chunk(text, strategy, size, overlap) of
section 4.1 (the chunking engine is missing from the snapshot),
dispatching on the strategy. -/
def chunk (docId : String) (strategy : Strategy) (text : List Char) (ps : ChunkParams) :
    List Chunk :=
  match strategy with
  | .fixed => chunksFromSpans docId text (fixedSpans text.length ps.size (ps.size - ps.overlap))
  | .slidingWindow => chunksFromSpans docId text (fixedSpans text.length ps.size ps.stride)
  | .sentence => chunksFromPieces docId (groupBySize ps.size (splitSentences text))
  | .semantic =>
      chunksFromPieces docId (semanticGroup ps.size ps.sim ps.threshold (splitSentences text))
  | .recursive => chunksFromPieces docId (recursivePieces ps.size text)

/-- Offsets non-decreasing in chunk index: along the output list both
the start and the end offset never decrease. -/
def offsetsMonotone (cs : List Chunk) : Prop :=
  List.Chain' (fun a b => a.start_offset ≤ b.start_offset ∧ a.end_offset ≤ b.end_offset) cs

/-- The chunk spans cover every character position of the input. -/
def coversText (cs : List Chunk) (n : Nat) : Prop :=
  ∀ k, k < n → ∃ c ∈ cs, c.start_offset ≤ k ∧ k < c.end_offset

/-- Every chunk reports a char_count equal to the width of its span. -/
def charCountsMatch (cs : List Chunk) : Prop :=
  ∀ c ∈ cs, c.end_offset - c.start_offset = c.char_count

/-! ## Theorems -/

/-- Every plain api.ts wrapper instantiates the shared envelope
pattern with a total success-path payload, so the plain contract holds
for each of them. -/
theorem envelopeStep_plain {D R : Type} (dflt : String) (proj : APIResponse D → R) :
    WrapsPlain dflt proj (envelopeStep dflt (fun r => .ok (proj r))) := by
  refine ⟨?_, ?_, ?_⟩
  · intro t
    cases t with
    | ok r =>
        cases hr : r.success <;>
          simp [envelopeStep, intercept, isThrown, transportFails, hr]
    | httpError d => rfl
    | networkError => rfl
    | otherError m => rfl
  · intro r hr
    simp [envelopeStep, intercept, hr]
  · intro r hr
    simp [envelopeStep, intercept, hr]

/-- Every projecting api.ts wrapper instantiates the shared envelope
pattern with a data!.field success path, so the projecting contract
holds for each of them. -/
theorem envelopeStep_projecting {D R : Type} (dflt : String) (fieldName : String)
    (f : D → R) :
    WrapsProjecting dflt fieldName f
      (envelopeStep dflt (fun r => bangField fieldName f r.data)) := by
  refine ⟨?_, ?_, ?_, ?_⟩
  · intro t
    cases t with
    | ok r =>
        cases hr : r.success with
        | false => simp [envelopeStep, intercept, isThrown, transportFails, hr]
        | true =>
            cases hd : r.data <;>
              simp [envelopeStep, intercept, isThrown, transportFails, bangField, hr, hd]
    | httpError d => rfl
    | networkError => rfl
    | otherError m => rfl
  · intro r d hr hd
    simp [envelopeStep, intercept, bangField, hr, hd]
  · intro r hr hd
    simp [envelopeStep, intercept, bangField, hr, hd]
  · intro r hr
    simp [envelopeStep, intercept, hr]

/-- C8 (counterexample): two concrete envelopes refute the claim as
stated.  First, a failure envelope whose message field is present but
empty makes uploadDocument throw the fixed default "Upload failed", not
the envelope message field (the empty string).  Second, a success
envelope with no data payload makes getDocuments throw (the TypeError
raised by reading documents off an absent payload), although its
success flag is true and the transport did not fail, refuting the
throws-only-if direction. -/
theorem apiWrappers_throw_rule_cex :
    (uploadDocument (U := Nat)
        (.ok { success := false, message := some "", data := none }) =
          .error (.error "Upload failed") ∧
      ("Upload failed" : String) ≠ "") ∧
    (@getDocuments Nat
        (.ok { success := true, message := some "ok", data := none }) =
          .error (.typeError "documents") ∧
      transportFails (D := DocumentsData Nat)
        (.ok { success := true, message := some "ok", data := none }) = false) := by
  exact ⟨⟨rfl, by decide⟩, rfl, rfl⟩

/-- C8 (amended): every listed api.ts wrapper throws exactly when the
transport fails, the envelope has success false, or (for the five
wrappers that project a field out of the data payload) a success
envelope arrives with no data payload; on success, with the data the
wrapper needs present, it returns the (projected) payload unchanged;
on an envelope failure the thrown Error message is the envelope
message when present and nonempty, and the operation-specific default
otherwise, while the absent-data throw is the runtime TypeError naming
the projected field. -/
theorem apiWrappers_envelope_contract :
    (∀ U : Type, WrapsPlain "Upload failed"
        (fun r : APIResponse U => r.data) uploadDocument) ∧
    (∀ Document : Type, WrapsProjecting "Failed to fetch documents" "documents"
        (fun d : DocumentsData Document => d.documents) getDocuments) ∧
    (∀ Document : Type, WrapsProjecting "Failed to fetch document" "document"
        (fun d : DocumentData Document => d.document) getDocument) ∧
    (∀ D : Type, WrapsPlain "Failed to delete document"
        (fun _ : APIResponse D => ()) deleteDocument) ∧
    (∀ C : Type, WrapsPlain "Chunking failed"
        (fun r : APIResponse C => r.data) chunkDocument) ∧
    (∀ Chunk Stats : Type, WrapsProjecting "Failed to fetch chunks" "chunks"
        (fun d : ChunksData Chunk Stats => (d.chunks, d.statistics)) getDocumentChunks) ∧
    (∀ E : Type, WrapsPlain "Embedding generation failed"
        (fun r : APIResponse E => r.data) generateEmbeddings) ∧
    (∀ S : Type, WrapsPlain "Failed to store vectors"
        (fun r : APIResponse S => r.data) storeVectors) ∧
    (∀ S : Type, WrapsPlain "Search failed"
        (fun r : APIResponse S => r.data) searchVectors) ∧
    (WrapsProjecting "Failed to list collections" "collections"
        (fun d : CollectionsData => d.collections) listCollections) ∧
    (∀ D : Type, WrapsPlain "Failed to delete collection"
        (fun _ : APIResponse D => ()) deleteCollection) ∧
    (∀ Stats : Type, WrapsProjecting "Failed to get collection stats" "stats"
        (fun d : StatsData Stats => d.stats) getCollectionStats) :=
  ⟨fun _ => envelopeStep_plain _ _, fun _ => envelopeStep_projecting _ _ _,
   fun _ => envelopeStep_projecting _ _ _, fun _ => envelopeStep_plain _ _,
   fun _ => envelopeStep_plain _ _, fun _ _ => envelopeStep_projecting _ _ _,
   fun _ => envelopeStep_plain _ _, fun _ => envelopeStep_plain _ _,
   fun _ => envelopeStep_plain _ _, envelopeStep_projecting _ _ _,
   fun _ => envelopeStep_plain _ _, fun _ => envelopeStep_projecting _ _ _⟩

/-- C8 (witness): the amended contract applied to concrete delivered
success envelopes, one through a plain wrapper and one through a
projecting wrapper with its data present. -/
theorem apiWrappers_envelope_contract_witness :
    uploadDocument (U := Nat)
        (.ok { success := true, message := some "ok", data := some 7 }) =
      .ok (some 7) ∧
    @getDocuments Nat
        (.ok { success := true, message := some "ok", data := some ⟨[3, 4]⟩ }) =
      .ok [3, 4] :=
  ⟨(apiWrappers_envelope_contract.1 Nat).2.1
     { success := true, message := some "ok", data := some 7 } rfl,
   (apiWrappers_envelope_contract.2.1 Nat).2.1
     { success := true, message := some "ok", data := some ⟨[3, 4]⟩ } ⟨[3, 4]⟩ rfl rfl⟩

/-- C9: a selected file whose extension is not .txt or .md, or whose
size exceeds ten megabytes, is rejected by handleFileSelect before any
upload request is issued. -/
theorem handleFileSelect_validates (name : List Char) (size : Nat) :
    (fileExt name ∉ allowedTypes → handleFileSelect name size = .typeRejected) ∧
    (fileExt name ∈ allowedTypes → size > maxUploadSize →
        handleFileSelect name size = .sizeRejected) ∧
    (fileExt name ∉ allowedTypes ∨ size > maxUploadSize →
        handleFileSelect name size ≠ .uploadStarted) := by
  refine ⟨?_, ?_, ?_⟩
  · intro h
    simp [handleFileSelect, h]
  · intro h hs
    simp [handleFileSelect, h, hs]
  · rintro (h | h)
    · simp [handleFileSelect, h]
    · by_cases he : fileExt name ∈ allowedTypes
      · simp [handleFileSelect, he, h]
      · simp [handleFileSelect, he]

/-- C9 (witness): a .pdf file is rejected for its type, an oversized
.txt file for its size, and neither starts an upload. -/
theorem handleFileSelect_validates_witness :
    fileExt "doc.pdf".toList ∉ allowedTypes ∧
    handleFileSelect "doc.pdf".toList 10 = .typeRejected ∧
    handleFileSelect "a.txt".toList (10 * 1024 * 1024 + 1) = .sizeRejected :=
  ⟨by decide,
   (handleFileSelect_validates "doc.pdf".toList 10).1 (by decide),
   (handleFileSelect_validates "a.txt".toList (10 * 1024 * 1024 + 1)).2.1
     (by decide) (by decide)⟩

/-- C2: search returns at most top_k results, ordered by descending
score, for every store, collection, query vector, similarity function
and top_k. -/
theorem search_topk_sorted (sim : List ℚ → List ℚ → ℚ) (s : VectorStore) (name : String)
    (q : List ℚ) (topk : Nat) :
    (VectorStore.search sim s name q topk).length ≤ topk ∧
    List.Sorted byScoreDesc (VectorStore.search sim s name q topk) := by
  unfold VectorStore.search
  cases lookupCollection s name with
  | none => exact ⟨Nat.zero_le _, List.sorted_nil⟩
  | some c =>
      constructor
      · exact List.length_take_le _ _
      · exact List.Pairwise.sublist (List.take_sublist _ _)
          (List.sorted_insertionSort byScoreDesc _)

/-- C6: searching a collection that does not exist, or whose entry list
is empty, returns the empty result sequence (and search is a total
function, so no error is possible). -/
theorem search_empty_collection (sim : List ℚ → List ℚ → ℚ) (s : VectorStore)
    (name : String) (q : List ℚ) (topk : Nat)
    (h : ∀ c, lookupCollection s name = some c → c.entries = []) :
    VectorStore.search sim s name q topk = [] := by
  unfold VectorStore.search
  cases hc : lookupCollection s name with
  | none => rfl
  | some c =>
      simp [h c hc]

/-- C6 (witness): searching the empty store returns no results. -/
theorem search_empty_collection_witness :
    VectorStore.search (fun _ _ => 0) ⟨[]⟩ "default" [1, 0] 5 = [] :=
  search_empty_collection (fun _ _ => 0) ⟨[]⟩ "default" [1, 0] 5
    (fun c h => by cases h)

/-- C7: deleting a collection that does not exist is a no-op and raises
no error, and doing it twice in a row is a no-op and error-free both
times. -/
theorem delete_missing_idempotent (s : VectorStore) (name : String)
    (h : lookupCollection s name = none) :
    VectorStore.delete s name = .ok s ∧
    VectorStore.applyDelete s name = s ∧
    VectorStore.delete (VectorStore.applyDelete s name) name = .ok s := by
  have hfind : s.collections.find? (fun p => p.1 == name) = none := by
    unfold lookupCollection at h
    exact Option.map_eq_none.mp h
  have hall := List.find?_eq_none.mp hfind
  have hfilter : s.collections.filter (fun p => !(p.1 == name)) = s.collections := by
    refine List.filter_eq_self.mpr ?_
    intro a ha
    simp only [Bool.not_eq_true']
    exact Bool.not_eq_true _ |>.mp (by simpa using hall a ha)
  have h1 : VectorStore.delete s name = .ok s := by
    unfold VectorStore.delete
    rw [hfilter]
  have h2 : VectorStore.applyDelete s name = s := by
    unfold VectorStore.applyDelete
    rw [h1]
  exact ⟨h1, h2, by rw [h2, h1]⟩

/-- C7 (witness): deleting a collection absent from a one-collection
store twice in a row is a no-op both times. -/
theorem delete_missing_idempotent_witness :
    lookupCollection ⟨[("other", ⟨2, []⟩)]⟩ "gone" = none ∧
    VectorStore.delete ⟨[("other", ⟨2, []⟩)]⟩ "gone" = .ok ⟨[("other", ⟨2, []⟩)]⟩ :=
  ⟨by decide, (delete_missing_idempotent ⟨[("other", ⟨2, []⟩)]⟩ "gone" (by decide)).1⟩

/-- C3: an upsert into a collection with an established dimension that
contains any entry of a different vector dimension is rejected with a
DimensionMismatchError, and the store the caller holds, in particular
the collection count and contents, is unchanged (no entry is padded,
truncated or partially stored). -/
theorem upsert_dimension_mismatch (s : VectorStore) (name : String)
    (es : List CollectionEntry) (c : Collection)
    (hc : lookupCollection s name = some c)
    (hbad : ∃ e ∈ es, e.vector.length ≠ c.dim) :
    VectorStore.upsert s name es = .error .dimensionMismatch ∧
    VectorStore.applyUpsert s name es = s ∧
    VectorStore.statsCount (VectorStore.applyUpsert s name es) name =
      VectorStore.statsCount s name := by
  have hall : es.all (fun e => e.vector.length == c.dim) = false := by
    obtain ⟨e, he, hne⟩ := hbad
    by_contra hcon
    have := List.all_eq_true.mp (Bool.not_eq_false _ |>.mp hcon) e he
    exact hne (by simpa using this)
  have h1 : VectorStore.upsert s name es = .error .dimensionMismatch := by
    simp [VectorStore.upsert, hc, hall]
  have h2 : VectorStore.applyUpsert s name es = s := by
    unfold VectorStore.applyUpsert
    rw [h1]
  exact ⟨h1, h2, by rw [h2]⟩

/-- C3 (witness): upserting a 384-dimensional vector into a collection
established at dimension 300 is rejected and the count is unchanged. -/
theorem upsert_dimension_mismatch_witness :
    lookupCollection ⟨[("col", ⟨300, []⟩)]⟩ "col" = some ⟨300, []⟩ ∧
    VectorStore.upsert ⟨[("col", ⟨300, []⟩)]⟩ "col"
        [⟨"e1", List.replicate 384 (0 : ℚ), "t", []⟩] = .error .dimensionMismatch :=
  ⟨by rfl,
   (upsert_dimension_mismatch ⟨[("col", ⟨300, []⟩)]⟩ "col"
      [⟨"e1", List.replicate 384 (0 : ℚ), "t", []⟩] ⟨300, []⟩ (by rfl)
      ⟨⟨"e1", List.replicate 384 (0 : ℚ), "t", []⟩, List.mem_singleton_self _, by
        show (List.replicate 384 (0 : ℚ)).length ≠ 300
        rw [List.length_replicate]
        decide⟩).1⟩

/-- The slot ragCompare stores for one provider, determined by that
provider generation outcome alone. -/
theorem lookupProvider_ragCompare (providers : List String)
    (gen : String → Except String GenSuccess) (p : String) (hp : p ∈ providers) :
    lookupProvider (ragCompare providers gen) p =
      some (match gen p with
            | .ok a => ProviderAnswer.answered p a
            | .error e => ProviderAnswer.failed p e) := by
  induction providers with
  | nil => cases hp
  | cons q rest ih =>
      by_cases hq : q = p
      · subst hq
        unfold lookupProvider ragCompare
        simp [List.find?]
      · have hp2 : p ∈ rest := by
          cases hp with
          | head => exact absurd rfl hq
          | tail _ h => exact h
        unfold lookupProvider ragCompare at ih ⊢
        simp only [List.map_cons, List.find?]
        have : (q == p) = false := by simp [hq]
        rw [this]
        exact ih hp2

/-- C1: the compare dispatch produces exactly one slot per selected
provider, keyed by provider name; a failing provider is recorded in its
own slot with an error and no answer text, and every succeeding
provider keeps its answer intact; the result is a total value, so the
request as a whole cannot raise. -/
theorem ragCompare_isolates_failures (providers : List String)
    (gen : String → Except String GenSuccess) (hnd : providers.Nodup) :
    (ragCompare providers gen).length = providers.length ∧
    (ragCompare providers gen).map Prod.fst = providers ∧
    ((ragCompare providers gen).map Prod.fst).Nodup ∧
    (∀ p ∈ providers, ∀ e, gen p = .error e →
        ∃ pa, lookupProvider (ragCompare providers gen) p = some pa ∧
          pa.answerText? = none ∧ pa.errorMsg? = some e) ∧
    (∀ p ∈ providers, ∀ a, gen p = .ok a →
        ∃ pa, lookupProvider (ragCompare providers gen) p = some pa ∧
          pa.answerText? = some a.answer_text ∧ pa.errorMsg? = none) := by
  have hkeys : (ragCompare providers gen).map Prod.fst = providers := by
    induction providers with
    | nil => rfl
    | cons q rest ih =>
        simp only [ragCompare, List.map_cons] at ih ⊢
        rw [ih hnd.of_cons]
  refine ⟨?_, hkeys, ?_, ?_, ?_⟩
  · unfold ragCompare
    exact List.length_map _ _
  · rw [hkeys]; exact hnd
  · intro p hp e hgen
    refine ⟨ProviderAnswer.failed p e, ?_, rfl, rfl⟩
    rw [lookupProvider_ragCompare providers gen p hp, hgen]
  · intro p hp a hgen
    refine ⟨ProviderAnswer.answered p a, ?_, rfl, rfl⟩
    rw [lookupProvider_ragCompare providers gen p hp, hgen]

/-- C1 (witness): comparing three providers where the middle one always
fails yields three slots, an error slot with no answer text for the
failing provider and intact answers for the other two. -/
theorem ragCompare_isolates_failures_witness :
    (["alpha", "beta", "gamma"] : List String).Nodup ∧
    (ragCompare ["alpha", "beta", "gamma"]
        (fun p => if p = "beta" then .error "boom"
                  else .ok ⟨"fine", "m1", ⟨1, 2, 3⟩⟩)).length = 3 :=
  ⟨by decide,
   (ragCompare_isolates_failures ["alpha", "beta", "gamma"]
      (fun p => if p = "beta" then .error "boom"
                else .ok ⟨"fine", "m1", ⟨1, 2, 3⟩⟩) (by decide)).1⟩

/-- Updating one document status leaves every other document status
unchanged. -/
theorem lookupStatus_setStatus_other (m : List (String × DocStatus)) (id d : String)
    (st : DocStatus) (h : d ≠ id) :
    lookupStatus (setStatus m id st) d = lookupStatus m d := by
  induction m with
  | nil => rfl
  | cons a rest ih =>
      have hstep : setStatus (a :: rest) id st =
          (if a.1 = id then (a.1, st) else a) :: setStatus rest id st := by
        unfold setStatus
        rw [List.map_cons]
      rw [hstep]
      by_cases ha : a.1 = id
      · have had : ¬ a.1 = d := fun hh => h (by rw [← hh, ha])
        rw [if_pos ha]
        simp only [lookupStatus]
        rw [if_neg had, if_neg had]
        exact ih
      · rw [if_neg ha]
        simp only [lookupStatus]
        by_cases had : a.1 = d
        · rw [if_pos had, if_pos had]
        · rw [if_neg had, if_neg had]
          exact ih

/-- Updating a document status that is present in the map stores the
new value under that document. -/
theorem lookupStatus_setStatus_same (m : List (String × DocStatus)) (id : String)
    (st : DocStatus) (h : (lookupStatus m id).isSome) :
    lookupStatus (setStatus m id st) id = some st := by
  induction m with
  | nil => simp [lookupStatus] at h
  | cons a rest ih =>
      have hstep : setStatus (a :: rest) id st =
          (if a.1 = id then (a.1, st) else a) :: setStatus rest id st := by
        unfold setStatus
        rw [List.map_cons]
      rw [hstep]
      by_cases ha : a.1 = id
      · rw [if_pos ha]
        simp only [lookupStatus]
        rw [if_pos ha]
      · rw [if_neg ha]
        simp only [lookupStatus] at h ⊢
        rw [if_neg ha] at h ⊢
        exact ih h

/-- The chunkAll loop never touches the status of a document outside
its remaining work list. -/
theorem chunkAllGo_status_other {R : Type} (gen : String → Except String R) :
    ∀ (rest : List String) (m : List (String × DocStatus)) (d : String), d ∉ rest →
      lookupStatus (chunkAllGo gen rest m).status d = lookupStatus m d := by
  intro rest
  induction rest with
  | nil => intro m d _; rfl
  | cons r rest2 ih =>
      intro m d hd
      have hdr : d ≠ r := fun h => hd (h ▸ List.mem_cons_self r rest2)
      have hd2 : d ∉ rest2 := fun h => hd (List.mem_cons_of_mem r h)
      unfold chunkAllGo
      cases gen r with
      | ok v =>
          simp only []
          rw [ih _ d hd2, lookupStatus_setStatus_other _ _ _ _ hdr,
            lookupStatus_setStatus_other _ _ _ _ hdr]
      | error e =>
          simp only []
          rw [ih _ d hd2, lookupStatus_setStatus_other _ _ _ _ hdr,
            lookupStatus_setStatus_other _ _ _ _ hdr]

/-- A document of the remaining work list, present in the status map,
ends with status success when its chunkDocument call succeeds and
status error when it fails. -/
theorem chunkAllGo_status_mem {R : Type} (gen : String → Except String R) :
    ∀ (rest : List String) (m : List (String × DocStatus)) (d : String),
      rest.Nodup → d ∈ rest → (lookupStatus m d).isSome →
      lookupStatus (chunkAllGo gen rest m).status d =
        some (match gen d with
              | .ok _ => DocStatus.success
              | .error _ => DocStatus.error) := by
  intro rest
  induction rest with
  | nil => intro m d _ hd; cases hd
  | cons r rest2 ih =>
      intro m d hnd hd hsome
      by_cases hdr : d = r
      · subst hdr
        have hd2 : d ∉ rest2 := (List.nodup_cons.mp hnd).1
        unfold chunkAllGo
        cases hgen : gen d with
        | ok v =>
            simp only []
            rw [chunkAllGo_status_other gen rest2 _ d hd2]
            have h1 : (lookupStatus (setStatus m d .processing) d).isSome := by
              rw [lookupStatus_setStatus_same m d .processing hsome]
              rfl
            rw [lookupStatus_setStatus_same _ d .success h1]
        | error e =>
            simp only []
            rw [chunkAllGo_status_other gen rest2 _ d hd2]
            have h1 : (lookupStatus (setStatus m d .processing) d).isSome := by
              rw [lookupStatus_setStatus_same m d .processing hsome]
              rfl
            rw [lookupStatus_setStatus_same _ d .error h1]
      · have hd2 : d ∈ rest2 := by
          cases hd with
          | head => exact absurd rfl hdr
          | tail _ h => exact h
        unfold chunkAllGo
        cases gen r with
        | ok v =>
            simp only []
            refine ih _ d (List.nodup_cons.mp hnd).2 hd2 ?_
            rw [lookupStatus_setStatus_other _ _ _ _ hdr,
              lookupStatus_setStatus_other _ _ _ _ hdr]
            exact hsome
        | error e =>
            simp only []
            refine ih _ d (List.nodup_cons.mp hnd).2 hd2 ?_
            rw [lookupStatus_setStatus_other _ _ _ _ hdr,
              lookupStatus_setStatus_other _ _ _ _ hdr]
            exact hsome

/-- Every selected document starts in the initial status map. -/
theorem lookupStatus_init (docs : List String) (d : String) (hd : d ∈ docs) :
    lookupStatus (docs.map (fun x => (x, DocStatus.pending))) d = some .pending := by
  induction docs with
  | nil => cases hd
  | cons q rest ih =>
      simp only [List.map_cons, lookupStatus]
      by_cases hq : q = d
      · rw [if_pos hq]
      · have hd2 : d ∈ rest := by
          cases hd with
          | head => exact absurd rfl hq
          | tail _ h => exact h
        rw [if_neg hq]
        exact ih hd2

/-- The chunkAll loop calls chunkDocument once per remaining document,
in list order. -/
theorem chunkAllGo_calls {R : Type} (gen : String → Except String R) :
    ∀ (rest : List String) (m : List (String × DocStatus)),
      (chunkAllGo gen rest m).calls = rest := by
  intro rest
  induction rest with
  | nil => intro m; rfl
  | cons r rest2 ih =>
      intro m
      unfold chunkAllGo
      cases gen r with
      | ok v => simp only []; rw [ih]
      | error e => simp only []; rw [ih]

/-- The chunkAll loop fires onChunkingComplete exactly for the
documents whose chunkDocument call succeeded, in order. -/
theorem chunkAllGo_completions {R : Type} (gen : String → Except String R) :
    ∀ (rest : List String) (m : List (String × DocStatus)),
      (chunkAllGo gen rest m).completions =
        rest.filterMap (fun d =>
          match gen d with
          | .ok r => some (d, r)
          | .error _ => none) := by
  intro rest
  induction rest with
  | nil => intro m; rfl
  | cons r rest2 ih =>
      intro m
      unfold chunkAllGo
      cases hgen : gen r with
      | ok v =>
          simp only [List.filterMap_cons, hgen]
          rw [ih]
      | error e =>
          simp only [List.filterMap_cons, hgen]
          rw [ih]

/-- C10: handleChunkAll issues one chunkDocument call per selected
document, strictly in list order; every document ends with status
success or error according to its own outcome, so one failure never
stops the remaining documents; and onChunkingComplete fires exactly for
the successfully chunked documents, in order. -/
theorem handleChunkAll_sequential_isolated {R : Type} (docs : List String)
    (gen : String → Except String R) (hnd : docs.Nodup) :
    (handleChunkAll docs gen).calls = docs ∧
    (∀ d ∈ docs, ∀ r, gen d = .ok r →
        lookupStatus (handleChunkAll docs gen).status d = some .success) ∧
    (∀ d ∈ docs, ∀ e, gen d = .error e →
        lookupStatus (handleChunkAll docs gen).status d = some .error) ∧
    (∀ d ∈ docs, lookupStatus (handleChunkAll docs gen).status d = some .success ∨
        lookupStatus (handleChunkAll docs gen).status d = some .error) ∧
    (handleChunkAll docs gen).completions =
      docs.filterMap (fun d =>
        match gen d with
        | .ok r => some (d, r)
        | .error _ => none) := by
  have hstat : ∀ d ∈ docs,
      lookupStatus (handleChunkAll docs gen).status d =
        some (match gen d with
              | .ok _ => DocStatus.success
              | .error _ => DocStatus.error) := by
    intro d hd
    unfold handleChunkAll
    refine chunkAllGo_status_mem gen docs _ d hnd hd ?_
    rw [lookupStatus_init docs d hd]
    rfl
  refine ⟨chunkAllGo_calls gen docs _, ?_, ?_, ?_, chunkAllGo_completions gen docs _⟩
  · intro d hd r hr
    rw [hstat d hd, hr]
  · intro d hd e he
    rw [hstat d hd, he]
  · intro d hd
    rw [hstat d hd]
    cases gen d with
    | ok v => exact Or.inl rfl
    | error e => exact Or.inr rfl

/-- C10 (witness): three documents where the middle chunking call
fails: the calls happen in order, the statuses are success, error,
success, and completion fires for the first and third documents. -/
theorem handleChunkAll_sequential_isolated_witness :
    (["d1", "d2", "d3"] : List String).Nodup ∧
    (handleChunkAll ["d1", "d2", "d3"]
        (fun d => if d = "d2" then .error "boom" else .ok 1)).calls = ["d1", "d2", "d3"] :=
  ⟨by decide,
   (handleChunkAll_sequential_isolated ["d1", "d2", "d3"]
      (fun d => if d = "d2" then .error "boom" else .ok 1) (by decide)).1⟩

/-- Chunks built from a partition have non-decreasing offsets. -/
theorem chunksFromPiecesAux_monotone (docId : String) :
    ∀ (pieces : List (List Char)) (idx start : Nat),
      List.Chain' (fun a b => a.start_offset ≤ b.start_offset ∧ a.end_offset ≤ b.end_offset)
        (chunksFromPiecesAux docId idx start pieces) := by
  intro pieces
  induction pieces with
  | nil => intro idx start; exact List.chain'_nil
  | cons p rest ih =>
      intro idx start
      unfold chunksFromPiecesAux
      refine List.chain'_cons'.mpr ⟨?_, ih (idx + 1) (start + p.length)⟩
      intro y hy
      cases rest with
      | nil => cases hy
      | cons q rest2 =>
          have : y = mkChunk docId (idx + 1) q (start + p.length)
              (start + p.length + q.length) := by
            unfold chunksFromPiecesAux at hy
            cases hy
            rfl
          subst this
          exact ⟨Nat.le_add_right _ _, Nat.le_add_right _ _⟩

/-- Chunks built from a partition cover every position of the spanned
interval. -/
theorem chunksFromPiecesAux_covers (docId : String) :
    ∀ (pieces : List (List Char)) (idx start k : Nat),
      start ≤ k → k < start + pieces.flatten.length →
      ∃ c ∈ chunksFromPiecesAux docId idx start pieces,
        c.start_offset ≤ k ∧ k < c.end_offset := by
  intro pieces
  induction pieces with
  | nil =>
      intro idx start k hk1 hk2
      simp only [List.flatten_nil, List.length_nil, Nat.add_zero] at hk2
      exact absurd hk2 (Nat.not_lt.mpr hk1)
  | cons p rest ih =>
      intro idx start k hk1 hk2
      by_cases hk3 : k < start + p.length
      · refine ⟨mkChunk docId idx p start (start + p.length), ?_, hk1, hk3⟩
        unfold chunksFromPiecesAux
        exact List.mem_cons_self _ _
      · have hk4 : start + p.length ≤ k := Nat.not_lt.mp hk3
        have hk5 : k < start + p.length + rest.flatten.length := by
          simp only [List.flatten_cons, List.length_append] at hk2
          omega
        obtain ⟨c, hc, hc2⟩ := ih (idx + 1) (start + p.length) k hk4 hk5
        refine ⟨c, ?_, hc2⟩
        unfold chunksFromPiecesAux
        exact List.mem_cons_of_mem _ hc

/-- Chunks built from a partition report a char_count equal to their
span width. -/
theorem chunksFromPiecesAux_charCounts (docId : String) :
    ∀ (pieces : List (List Char)) (idx start : Nat),
      ∀ c ∈ chunksFromPiecesAux docId idx start pieces,
        c.end_offset - c.start_offset = c.char_count := by
  intro pieces
  induction pieces with
  | nil => intro idx start c hc; cases hc
  | cons p rest ih =>
      intro idx start c hc
      unfold chunksFromPiecesAux at hc
      cases hc with
      | head =>
          show start + p.length - start = p.length
          omega
      | tail _ h => exact ih (idx + 1) (start + p.length) c h

/-- The three C4 properties for any strategy that chunks a partition of
the text. -/
theorem chunksFromPieces_props (docId : String) (pieces : List (List Char))
    (text : List Char) (hjoin : pieces.flatten = text) :
    offsetsMonotone (chunksFromPieces docId pieces) ∧
    coversText (chunksFromPieces docId pieces) text.length ∧
    charCountsMatch (chunksFromPieces docId pieces) := by
  refine ⟨chunksFromPiecesAux_monotone docId pieces 0 0, ?_,
    chunksFromPiecesAux_charCounts docId pieces 0 0⟩
  intro k hk
  refine chunksFromPiecesAux_covers docId pieces 0 0 k (Nat.zero_le _) ?_
  rw [hjoin]
  omega

/-- Cutting after a character predicate preserves the text. -/
theorem splitAfterAux_flatten (p : Char → Bool) :
    ∀ (s acc : List Char), (splitAfterAux p s acc).flatten = acc.reverse ++ s := by
  intro s
  induction s with
  | nil =>
      intro acc
      unfold splitAfterAux
      by_cases ha : acc.isEmpty
      · rw [if_pos ha, List.isEmpty_iff.mp ha]
        rfl
      · rw [if_neg ha]
        simp
  | cons c rest ih =>
      intro acc
      unfold splitAfterAux
      by_cases hc : p c
      · rw [if_pos hc]
        simp only [List.flatten_cons, ih []]
        simp
      · rw [if_neg hc, ih (c :: acc)]
        simp

/-- Sentence splitting preserves the text. -/
theorem splitSentences_flatten (s : List Char) : (splitSentences s).flatten = s := by
  unfold splitSentences splitAfter
  rw [splitAfterAux_flatten]
  rfl

/-- Whitespace splitting preserves the text. -/
theorem splitSpaces_flatten (s : List Char) : (splitSpaces s).flatten = s := by
  unfold splitSpaces splitAfter
  rw [splitAfterAux_flatten]
  rfl

/-- Paragraph splitting preserves the text. -/
theorem splitParasAux_flatten :
    ∀ (s acc : List Char), (splitParasAux s acc).flatten = acc.reverse ++ s := by
  intro s acc
  induction s, acc using splitParasAux.induct with
  | case1 acc ha =>
      unfold splitParasAux
      rw [if_pos ha, List.isEmpty_iff.mp ha]
      rfl
  | case2 acc ha =>
      unfold splitParasAux
      rw [if_neg ha]
      simp
  | case3 rest acc ih =>
      show ((acc.reverse ++ ['\n', '\n']) :: splitParasAux rest []).flatten = _
      simp only [List.flatten_cons, ih]
      simp
  | case4 c rest acc hne ih =>
      have hstep : splitParasAux (c :: rest) acc = splitParasAux rest (c :: acc) := by
        simp only [splitParasAux]
      rw [hstep, ih]
      simp

/-- Greedy merging of adjacent pieces preserves the text. -/
theorem groupBySizeAux_flatten (size : Nat) :
    ∀ (pieces : List (List Char)) (cur : List Char),
      (groupBySizeAux size pieces cur).flatten = cur ++ pieces.flatten := by
  intro pieces
  induction pieces with
  | nil =>
      intro cur
      unfold groupBySizeAux
      by_cases hc : cur.isEmpty
      · rw [if_pos hc, List.isEmpty_iff.mp hc]
        rfl
      · rw [if_neg hc]
        simp
  | cons p rest ih =>
      intro cur
      unfold groupBySizeAux
      by_cases hc : cur.isEmpty
      · rw [if_pos hc, ih p, List.isEmpty_iff.mp hc]
        simp
      · rw [if_neg hc]
        by_cases hs : cur.length + p.length ≤ size
        · rw [if_pos hs, ih (cur ++ p)]
          simp
        · rw [if_neg hs]
          simp only [List.flatten_cons, ih p]

/-- Greedy merging preserves the text. -/
theorem groupBySize_flatten (size : Nat) (pieces : List (List Char)) :
    (groupBySize size pieces).flatten = pieces.flatten := by
  unfold groupBySize
  rw [groupBySizeAux_flatten]
  rfl

/-- Semantic grouping preserves the text. -/
theorem semanticGroupAux_flatten (size : Nat) (sim : List Char → List Char → ℚ) (θ : ℚ) :
    ∀ (pieces : List (List Char)) (cur prev : List Char),
      (semanticGroupAux size sim θ pieces cur prev).flatten = cur ++ pieces.flatten := by
  intro pieces
  induction pieces with
  | nil =>
      intro cur prev
      unfold semanticGroupAux
      by_cases hc : cur.isEmpty
      · rw [if_pos hc, List.isEmpty_iff.mp hc]
        rfl
      · rw [if_neg hc]
        simp
  | cons p rest ih =>
      intro cur prev
      unfold semanticGroupAux
      by_cases hc : cur.isEmpty
      · rw [if_pos hc, ih p p, List.isEmpty_iff.mp hc]
        simp
      · rw [if_neg hc]
        by_cases hs : sim prev p < θ ∨ size < cur.length + p.length
        · rw [if_pos hs]
          simp only [List.flatten_cons, ih p p]
        · rw [if_neg hs, ih (cur ++ p) p]
          simp

/-- The zero-overlap chop preserves the text. -/
theorem chop_flatten (size : Nat) : ∀ (s : List Char), (chop size s).flatten = s := by
  intro s
  induction s using chop.induct size with
  | case1 => simp only [chop, List.flatten_nil]
  | case2 c rest ih =>
      simp only [chop, List.flatten_cons, ih]
      rw [List.cons_append, List.take_append_drop]

/-- The Fixed fallback applied piecewise preserves the text. -/
theorem chopFallback_flatten (size : Nat) :
    ∀ (pieces : List (List Char)),
      ((pieces.map (fun p => if p.length ≤ size then [p] else chop size p)).flatten).flatten
        = pieces.flatten := by
  intro pieces
  induction pieces with
  | nil => rfl
  | cons p rest ih =>
      simp only [List.map_cons, List.flatten_cons, List.flatten_append, ih]
      by_cases hp : p.length ≤ size
      · rw [if_pos hp]
        simp
      · rw [if_neg hp, chop_flatten]

/-- The Recursive strategy produces a partition of the text. -/
theorem recursivePieces_flatten (size : Nat) (s : List Char) :
    (recursivePieces size s).flatten = s := by
  unfold recursivePieces
  by_cases h1 : (splitParas s).all (fun p => decide (p.length ≤ size))
  · rw [if_pos h1, groupBySize_flatten]
    unfold splitParas
    rw [splitParasAux_flatten]
    rfl
  · rw [if_neg h1]
    by_cases h2 : (splitSentences s).all (fun p => decide (p.length ≤ size))
    · rw [if_pos h2, groupBySize_flatten, splitSentences_flatten]
    · rw [if_neg h2]
      by_cases h3 : (splitSpaces s).all (fun p => decide (p.length ≤ size))
      · rw [if_pos h3, groupBySize_flatten, splitSpaces_flatten]
      · rw [if_neg h3, groupBySize_flatten, chopFallback_flatten, splitSpaces_flatten]

/-- Semantic grouping of the sentence list preserves the text. -/
theorem semanticGroup_flatten (size : Nat) (sim : List Char → List Char → ℚ) (θ : ℚ)
    (pieces : List (List Char)) :
    (semanticGroup size sim θ pieces).flatten = pieces.flatten := by
  unfold semanticGroup
  rw [semanticGroupAux_flatten]
  rfl

/-- Ceiling division always reaches the dividend. -/
theorem ceilDiv_mul_ge (a b : Nat) (hb : 0 < b) : a ≤ ceilDiv a b * b := by
  unfold ceilDiv
  rw [Nat.mul_comm]
  have h1 := Nat.div_add_mod (a + b - 1) b
  have h2 : (a + b - 1) % b < b := Nat.mod_lt _ hb
  omega

/-- Ceiling division never overshoots by a full divisor. -/
theorem ceilDiv_mul_le (a b : Nat) : ceilDiv a b * b ≤ a + b - 1 := by
  unfold ceilDiv
  exact Nat.div_mul_le_self _ _

/-- The Fixed window count is zero exactly for empty input. -/
theorem fixedCount_eq_zero (n size step : Nat) :
    fixedCount n size step = 0 ↔ n = 0 := by
  unfold fixedCount
  by_cases hn : n = 0
  · rw [if_pos hn]
    simp [hn]
  · rw [if_neg hn]
    by_cases hns : n ≤ size
    · rw [if_pos hns]
      simp [hn]
    · rw [if_neg hns]
      simp [hn]

/-- The final Fixed window reaches the end of the text. -/
theorem fixedCount_last_covers (n size step : Nat) (hstep : 0 < step) :
    n ≤ (fixedCount n size step - 1) * step + size := by
  unfold fixedCount
  by_cases hn : n = 0
  · rw [if_pos hn]
    omega
  · rw [if_neg hn]
    by_cases hns : n ≤ size
    · rw [if_pos hns]
      omega
    · rw [if_neg hns]
      have h1 := ceilDiv_mul_ge (n - size) step hstep
      have h2 : 1 + ceilDiv (n - size) step - 1 = ceilDiv (n - size) step := by omega
      rw [h2]
      omega

/-- Every Fixed window starts inside the text. -/
theorem fixedSpans_start_lt (n size step i : Nat) (hstep : 0 < step)
    (hss : step ≤ size) (hi : i < fixedCount n size step) : i * step < n := by
  unfold fixedCount at hi
  by_cases hn : n = 0
  · rw [if_pos hn] at hi
    omega
  · rw [if_neg hn] at hi
    by_cases hns : n ≤ size
    · rw [if_pos hns] at hi
      have : i = 0 := by omega
      subst this
      omega
    · rw [if_neg hns] at hi
      have h1 : i * step ≤ ceilDiv (n - size) step * step :=
        Nat.mul_le_mul_right _ (by omega)
      have h2 := ceilDiv_mul_le (n - size) step
      omega

/-- Window i of the Fixed strategy is a member of the span list. -/
theorem mem_fixedSpans (n size step i : Nat) (hi : i < fixedCount n size step) :
    (i * step, min (i * step + size) n) ∈ fixedSpans n size step := by
  unfold fixedSpans
  exact List.mem_map.mpr ⟨i, List.mem_range.mpr hi, rfl⟩

/-- The Fixed windows cover every position of the text. -/
theorem fixedSpans_covers (n size step : Nat) (hsize : 0 < size) (hstep : 0 < step)
    (hss : step ≤ size) :
    ∀ k, k < n → ∃ sp ∈ fixedSpans n size step, sp.1 ≤ k ∧ k < sp.2 := by
  intro k hk
  have hn : n ≠ 0 := by omega
  have hpos : 0 < fixedCount n size step := by
    rcases Nat.eq_zero_or_pos (fixedCount n size step) with h | h
    · exact absurd ((fixedCount_eq_zero n size step).mp h) hn
    · exact h
  by_cases hq : k / step ≤ fixedCount n size step - 1
  · refine ⟨(k / step * step, min (k / step * step + size) n),
      mem_fixedSpans n size step (k / step) (by omega), Nat.div_mul_le_self _ _, ?_⟩
    have hdm := Nat.div_add_mod k step
    have hml : k % step < step := Nat.mod_lt _ hstep
    refine lt_min ?_ hk
    have : k < step * (k / step) + size := by omega
    rw [Nat.mul_comm]
    omega
  · refine ⟨((fixedCount n size step - 1) * step,
      min ((fixedCount n size step - 1) * step + size) n),
      mem_fixedSpans n size step _ (by omega), ?_, ?_⟩
    · have h4 : (fixedCount n size step - 1 + 1) * step ≤ k / step * step :=
        Nat.mul_le_mul_right _ (by omega)
      have h5 : k / step * step ≤ k := Nat.div_mul_le_self k step
      have h6 : (fixedCount n size step - 1 + 1) * step =
          (fixedCount n size step - 1) * step + step := by
        rw [Nat.succ_mul]
      omega
    · have h7 := fixedCount_last_covers n size step hstep
      exact lt_min (by omega) hk

/-- The Fixed windows have non-decreasing starts and ends. -/
theorem fixedSpans_chain (n size step : Nat) :
    List.Chain' (fun a b : Nat × Nat => a.1 ≤ b.1 ∧ a.2 ≤ b.2)
      (fixedSpans n size step) := by
  unfold fixedSpans
  rw [List.chain'_map]
  cases hc : fixedCount n size step with
  | zero => exact List.chain'_nil
  | succ m =>
      rw [List.chain'_range_succ]
      intro i him
      simp only [Nat.succ_eq_add_one]
      have hmul : i * step ≤ (i + 1) * step := Nat.mul_le_mul_right _ (Nat.le_succ i)
      exact ⟨hmul, min_le_min (by omega) (le_refl n)⟩

/-- Every Fixed window is a well-formed span inside the text. -/
theorem fixedSpans_bounds (n size step : Nat) (hsize : 0 < size) (hstep : 0 < step)
    (hss : step ≤ size) :
    ∀ sp ∈ fixedSpans n size step, sp.1 ≤ sp.2 ∧ sp.2 ≤ n := by
  intro sp hsp
  unfold fixedSpans at hsp
  obtain ⟨i, hir, rfl⟩ := List.mem_map.mp hsp
  have hi := List.mem_range.mp hir
  have h1 := fixedSpans_start_lt n size step i hstep hss hi
  exact ⟨le_min (Nat.le_add_right _ _) (Nat.le_of_lt h1), Nat.min_le_right _ _⟩

/-- Chunks built from spans inside the text report a char_count equal
to their span width. -/
theorem chunksFromSpansAux_charCounts (docId : String) (text : List Char) :
    ∀ (spans : List (Nat × Nat)) (idx : Nat),
      (∀ sp ∈ spans, sp.1 ≤ sp.2 ∧ sp.2 ≤ text.length) →
      ∀ c ∈ chunksFromSpansAux docId text idx spans,
        c.end_offset - c.start_offset = c.char_count := by
  intro spans
  induction spans with
  | nil => intro idx _ c hc; cases hc
  | cons sp rest ih =>
      intro idx hb c hc
      unfold chunksFromSpansAux at hc
      cases hc with
      | head =>
          have hsp := hb sp (List.mem_cons_self _ _)
          show sp.2 - sp.1 = ((text.drop sp.1).take (sp.2 - sp.1)).length
          rw [List.length_take, List.length_drop]
          omega
      | tail _ h =>
          exact ih (idx + 1) (fun sp2 h2 => hb sp2 (List.mem_cons_of_mem _ h2)) c h

/-- Every span yields a chunk with the same offsets. -/
theorem chunksFromSpansAux_mem (docId : String) (text : List Char) :
    ∀ (spans : List (Nat × Nat)) (idx : Nat), ∀ sp ∈ spans,
      ∃ c ∈ chunksFromSpansAux docId text idx spans,
        c.start_offset = sp.1 ∧ c.end_offset = sp.2 := by
  intro spans
  induction spans with
  | nil => intro idx sp hsp; cases hsp
  | cons sp0 rest ih =>
      intro idx sp hsp
      unfold chunksFromSpansAux
      cases hsp with
      | head =>
          exact ⟨mkChunk docId idx ((text.drop sp0.1).take (sp0.2 - sp0.1)) sp0.1 sp0.2,
            List.mem_cons_self _ _, rfl, rfl⟩
      | tail _ h =>
          obtain ⟨c, hc, h1, h2⟩ := ih (idx + 1) sp h
          exact ⟨c, List.mem_cons_of_mem _ hc, h1, h2⟩

/-- Chunks built from a span chain inherit the non-decreasing
offsets. -/
theorem chunksFromSpansAux_chain (docId : String) (text : List Char) :
    ∀ (spans : List (Nat × Nat)) (idx : Nat),
      List.Chain' (fun a b : Nat × Nat => a.1 ≤ b.1 ∧ a.2 ≤ b.2) spans →
      List.Chain' (fun a b => a.start_offset ≤ b.start_offset ∧ a.end_offset ≤ b.end_offset)
        (chunksFromSpansAux docId text idx spans) := by
  intro spans
  induction spans with
  | nil => intro idx _; exact List.chain'_nil
  | cons sp rest ih =>
      intro idx hch
      unfold chunksFromSpansAux
      refine List.chain'_cons'.mpr ⟨?_, ih (idx + 1) hch.tail⟩
      intro y hy
      cases rest with
      | nil => cases hy
      | cons q rest2 =>
          have hrel : sp.1 ≤ q.1 ∧ sp.2 ≤ q.2 := (List.chain'_cons.mp hch).1
          have : y = mkChunk docId (idx + 1) ((text.drop q.1).take (q.2 - q.1)) q.1 q.2 := by
            unfold chunksFromSpansAux at hy
            cases hy
            rfl
          subst this
          exact hrel

/-- Chunks from spans count one chunk per span. -/
theorem chunksFromSpansAux_length (docId : String) (text : List Char) :
    ∀ (spans : List (Nat × Nat)) (idx : Nat),
      (chunksFromSpansAux docId text idx spans).length = spans.length := by
  intro spans
  induction spans with
  | nil => intro idx; rfl
  | cons sp rest ih =>
      intro idx
      unfold chunksFromSpansAux
      rw [List.length_cons, List.length_cons, ih]

/-- The last chunk from spans matches the last span. -/
theorem chunksFromSpansAux_getLast (docId : String) (text : List Char) :
    ∀ (spans : List (Nat × Nat)) (idx : Nat) (sp : Nat × Nat),
      spans.getLast? = some sp →
      ∃ c, (chunksFromSpansAux docId text idx spans).getLast? = some c ∧
        c.start_offset = sp.1 ∧ c.end_offset = sp.2 ∧
        c.char_count = min (sp.2 - sp.1) (text.length - sp.1) := by
  intro spans
  induction spans with
  | nil => intro idx sp hsp; cases hsp
  | cons sp0 rest ih =>
      intro idx sp hsp
      cases rest with
      | nil =>
          simp only [List.getLast?_singleton, Option.some_inj] at hsp
          subst hsp
          refine ⟨mkChunk docId idx ((text.drop sp0.1).take (sp0.2 - sp0.1)) sp0.1 sp0.2,
            rfl, rfl, rfl, ?_⟩
          show ((text.drop sp0.1).take (sp0.2 - sp0.1)).length = _
          rw [List.length_take, List.length_drop]
      | cons q rest2 =>
          have hrest : (q :: rest2).getLast? = some sp := by
            rw [List.getLast?_cons_cons] at hsp
            exact hsp
          obtain ⟨c, hc, h1, h2, h3⟩ := ih (idx + 1) sp hrest
          refine ⟨c, ?_, h1, h2, h3⟩
          have hstep : chunksFromSpansAux docId text (idx + 1) (q :: rest2) =
              mkChunk docId (idx + 1) ((text.drop q.1).take (q.2 - q.1)) q.1 q.2 ::
                chunksFromSpansAux docId text (idx + 1 + 1) rest2 := rfl
          show (mkChunk docId idx ((text.drop sp0.1).take (sp0.2 - sp0.1)) sp0.1 sp0.2 ::
            chunksFromSpansAux docId text (idx + 1) (q :: rest2)).getLast? = some c
          rw [hstep, List.getLast?_cons_cons, ← hstep]
          exact hc

/-- The three C4 properties for the window strategies. -/
theorem chunksFromSpans_props (docId : String) (text : List Char) (size step : Nat)
    (hsize : 0 < size) (hstep : 0 < step) (hss : step ≤ size) :
    offsetsMonotone (chunksFromSpans docId text (fixedSpans text.length size step)) ∧
    coversText (chunksFromSpans docId text (fixedSpans text.length size step))
      text.length ∧
    charCountsMatch (chunksFromSpans docId text (fixedSpans text.length size step)) := by
  refine ⟨?_, ?_, ?_⟩
  · exact chunksFromSpansAux_chain docId text _ 0 (fixedSpans_chain _ _ _)
  · intro k hk
    obtain ⟨sp, hsp, h1, h2⟩ :=
      fixedSpans_covers text.length size step hsize hstep hss k hk
    obtain ⟨c, hc, e1, e2⟩ := chunksFromSpansAux_mem docId text _ 0 sp hsp
    exact ⟨c, hc, by omega, by omega⟩
  · exact chunksFromSpansAux_charCounts docId text _ 0
      (fixedSpans_bounds text.length size step hsize hstep hss)

/-- C4: for every input text, every strategy and every valid parameter
set, the produced chunks have non-decreasing offset pairs, their spans
cover the whole input with no gaps, and every chunk reports a
char_count equal to its span width. -/
theorem chunk_offsets_cover_counts (docId : String) (strategy : Strategy)
    (text : List Char) (ps : ChunkParams) (hsize : 0 < ps.size)
    (hov : ps.overlap < ps.size) (hstride1 : 0 < ps.stride)
    (hstride2 : ps.stride < ps.size) :
    offsetsMonotone (chunk docId strategy text ps) ∧
    coversText (chunk docId strategy text ps) text.length ∧
    charCountsMatch (chunk docId strategy text ps) := by
  cases strategy with
  | fixed =>
      exact chunksFromSpans_props docId text ps.size (ps.size - ps.overlap)
        hsize (by omega) (by omega)
  | slidingWindow =>
      exact chunksFromSpans_props docId text ps.size ps.stride
        hsize hstride1 (by omega)
  | sentence =>
      exact chunksFromPieces_props docId _ text
        (by rw [groupBySize_flatten, splitSentences_flatten])
  | semantic =>
      exact chunksFromPieces_props docId _ text
        (by rw [semanticGroup_flatten, splitSentences_flatten])
  | recursive =>
      exact chunksFromPieces_props docId _ text (recursivePieces_flatten ps.size text)

/-- C4 (witness): the three properties on a concrete two-sentence text
with the sentence strategy. -/
theorem chunk_offsets_cover_counts_witness :
    (0 : Nat) < 8 ∧ (2 : Nat) < 8 ∧ (0 : Nat) < 3 ∧ (3 : Nat) < 8 ∧
    (offsetsMonotone (chunk "d" .sentence "Hi. Yes! Ok?".toList
        ⟨8, 2, 3, fun _ _ => 0, 0⟩) ∧
      coversText (chunk "d" .sentence "Hi. Yes! Ok?".toList
        ⟨8, 2, 3, fun _ _ => 0, 0⟩) "Hi. Yes! Ok?".toList.length ∧
      charCountsMatch (chunk "d" .sentence "Hi. Yes! Ok?".toList
        ⟨8, 2, 3, fun _ _ => 0, 0⟩)) :=
  ⟨by decide, by decide, by decide, by decide,
   chunk_offsets_cover_counts "d" .sentence "Hi. Yes! Ok?".toList
     ⟨8, 2, 3, fun _ _ => 0, 0⟩ (by decide) (by decide) (by decide) (by decide)⟩

/-- The Fixed strategy emits exactly the window count of the model. -/
theorem chunk_fixed_length (docId : String) (text : List Char) (ps : ChunkParams) :
    (chunk docId .fixed text ps).length =
      fixedCount text.length ps.size (ps.size - ps.overlap) := by
  show (chunksFromSpans docId text
    (fixedSpans text.length ps.size (ps.size - ps.overlap))).length = _
  unfold chunksFromSpans
  rw [chunksFromSpansAux_length]
  unfold fixedSpans
  rw [List.length_map, List.length_range]

/-- The last Fixed window of a nonempty text. -/
theorem fixedSpans_getLast (n size step : Nat) (hn : 0 < n) :
    (fixedSpans n size step).getLast? =
      some ((fixedCount n size step - 1) * step,
        min ((fixedCount n size step - 1) * step + size) n) := by
  unfold fixedSpans
  rw [List.getLast?_map]
  cases hc : fixedCount n size step with
  | zero =>
      exact absurd ((fixedCount_eq_zero n size step).mp hc) (by omega)
  | succ m =>
      rw [List.range_succ, List.getLast?_concat]
      simp

/-- C5: the Fixed strategy returns zero chunks exactly for empty input;
for nonempty input the final window is always emitted, ends at the end
of the text and is at most size characters long; and over a
1200-character text with size 500 and overlap 50 the chunk count equals
the ceiling of (1200 - 50) / (500 - 50), which is 3. -/
theorem fixed_strategy_windows (docId : String) :
    (∀ (text : List Char) (ps : ChunkParams), 0 < ps.size → ps.overlap < ps.size →
        ((chunk docId .fixed text ps).length = 0 ↔ text = [])) ∧
    (∀ (text : List Char) (ps : ChunkParams), 0 < ps.size → ps.overlap < ps.size →
        text ≠ [] →
        ∃ c, (chunk docId .fixed text ps).getLast? = some c ∧
          c.end_offset = text.length ∧ c.char_count ≤ ps.size) ∧
    ((chunk docId .fixed (List.replicate 1200 'a')
        { size := 500, overlap := 50, stride := 1, sim := fun _ _ => 0,
          threshold := 0 }).length = ceilDiv (1200 - 50) (500 - 50) ∧
      ceilDiv (1200 - 50) (500 - 50) = 3) := by
  refine ⟨?_, ?_, ?_, ?_⟩
  · intro text ps hsize hov
    rw [chunk_fixed_length, fixedCount_eq_zero]
    exact List.length_eq_zero
  · intro text ps hsize hov hne
    have hn : 0 < text.length := List.length_pos.mpr hne
    have hstep : 0 < ps.size - ps.overlap := by omega
    have hlast := fixedSpans_getLast text.length ps.size (ps.size - ps.overlap) hn
    obtain ⟨c, hc, h1, h2, h3⟩ :=
      chunksFromSpansAux_getLast docId text
        (fixedSpans text.length ps.size (ps.size - ps.overlap)) 0 _ hlast
    have hcov := fixedCount_last_covers text.length ps.size (ps.size - ps.overlap) hstep
    refine ⟨c, hc, ?_, ?_⟩
    · rw [h2]
      exact min_eq_right hcov |>.symm ▸ (by omega)
    · rw [h3]
      simp only []
      omega
  · rw [chunk_fixed_length, List.length_replicate]
    decide
  · decide

/-- C5 (witness): the zero-chunks-only-for-empty-input property applied
to a concrete ten-character text. -/
theorem fixed_strategy_windows_witness :
    (0 : Nat) < 4 ∧ (1 : Nat) < 4 ∧
    ((chunk "d" .fixed "abcdefghij".toList
        ⟨4, 1, 3, fun _ _ => 0, 0⟩).length = 0 ↔ "abcdefghij".toList = []) :=
  ⟨by decide, by decide,
   (fixed_strategy_windows "d").1 "abcdefghij".toList
     ⟨4, 1, 3, fun _ _ => 0, 0⟩ (by decide) (by decide)⟩

end RagPipeline
